import Mathlib

/-!
Verification of the ip-conductor repository's core logic: sentence
segmentation with exact character offsets (article_manager.py,
parse_current_article_sentences), bookmark-cursor navigation
(article_manager.py, next/prev/first/last/set_bookmark_by_number), the
speak-mode key loop with its terminal raw-mode resource handling
(ip_conductor.py, handle_speak), the line-width configuration read
(ip_conductor.py), and text wrapping.

Strings are embedded as `List Char`; Python integers as `Int` where the
source can go negative or where nonnegativity is a claim under test, and
as `Nat` for character offsets.  External collaborators (the Instapaper
client, spaCy, the terminal) are modelled at their interface boundary:
the bookmark fetch is an `Option Nat` (`none` = the fetch raised, caught
and turned into `None`; `some k` = a list of `k` bookmarks), the spaCy
sentencizer is an arbitrary list of character spans of the document, and
terminal-mode calls are events in a trace.
-/

namespace IpConductor

/-! ### String primitives (Python `str.strip` / slicing on `List Char`) -/

/-- Python whitespace test used by `str.strip()` / `str.lstrip()`. -/
def pyWS (c : Char) : Bool := c.isWhitespace

/-- Python `s.lstrip()`: drop leading whitespace. -/
def lstrip (s : List Char) : List Char := s.dropWhile pyWS

/-- Python `s.rstrip()`: drop trailing whitespace. -/
def rstrip (s : List Char) : List Char := (s.reverse.dropWhile pyWS).reverse

/-- Python `s.strip()`: drop leading and trailing whitespace. -/
def strip (s : List Char) : List Char := rstrip (lstrip s)

/-- Python slicing `s[a:b]` for `0 ≤ a ≤ b ≤ len s`. -/
def pySlice (s : List Char) (a b : Nat) : List Char := (s.take b).drop a

theorem lstrip_lstrip (s : List Char) : lstrip (lstrip s) = lstrip s := by
  simp only [lstrip]
  induction s with
  | nil => rfl
  | cons c cs ih =>
    by_cases h : pyWS c
    · simp [List.dropWhile_cons, h, ih]
    · simp [List.dropWhile_cons, h]

theorem strip_lstrip (s : List Char) : strip (lstrip s) = strip s := by
  simp [strip, lstrip_lstrip]

theorem rstrip_ne_nil (s : List Char) (h : rstrip s ≠ []) : s ≠ [] := by
  intro hs
  subst hs
  exact h rfl

theorem length_lstrip_le (s : List Char) : (lstrip s).length ≤ s.length := by
  simp only [lstrip]
  induction s with
  | nil => simp
  | cons c cs ih =>
    by_cases h : pyWS c
    · simp only [List.dropWhile_cons, h, if_true]
      exact Nat.le_trans ih (Nat.le_succ _)
    · simp [List.dropWhile_cons, h]

theorem lstrip_eq_drop (s : List Char) :
    lstrip s = s.drop (s.length - (lstrip s).length) := by
  have hsplit : s.takeWhile pyWS ++ s.dropWhile pyWS = s :=
    List.takeWhile_append_dropWhile pyWS s
  have hlen : (s.takeWhile pyWS).length + (s.dropWhile pyWS).length = s.length := by
    rw [← List.length_append, hsplit]
  have hk : s.length - (lstrip s).length = (s.takeWhile pyWS).length := by
    simp only [lstrip]
    omega
  have hd : (s.takeWhile pyWS ++ s.dropWhile pyWS).drop (s.takeWhile pyWS).length =
      s.dropWhile pyWS := List.drop_left _ _
  rw [hsplit] at hd
  rw [hk, lstrip, hd]

theorem length_pySlice (s : List Char) (a b : Nat) (hab : a ≤ b)
    (hb : b ≤ s.length) : (pySlice s a b).length = b - a := by
  simp only [pySlice, List.length_drop, List.length_take]
  omega

theorem pySlice_drop (s : List Char) (a b k : Nat) :
    (pySlice s a b).drop k = pySlice s (a + k) b := by
  simp [pySlice, List.drop_drop]

/-! ### Sentence segmentation (`parse_current_article_sentences`)

spaCy's sentencizer returns spans `(start_char, end_char)` of the
document; `sent.text` is exactly the slice of the raw text over that
span.  The source strips the span's text, drops empty results, and
shifts `start_char` right by the number of stripped leading whitespace
characters, keeping `end_char` as reported. -/

/-- One record of `parse_current_article_sentences`: `(text, start_char, end_char)`. -/
def segmentSpans (T : List Char) (spans : List (Nat × Nat)) :
    List (List Char × Nat × Nat) :=
  spans.filterMap (fun p =>
    let sentText := pySlice T p.1 p.2
    let text := strip sentText
    if text.isEmpty then none
    else some (text, p.1 + (sentText.length - (lstrip sentText).length), p.2))

theorem strip_eq_of_record {T : List Char} {spans : List (Nat × Nat)}
    {r : List Char × Nat × Nat}
    (hspans : ∀ p ∈ spans, p.1 ≤ p.2 ∧ p.2 ≤ T.length)
    (hr : r ∈ segmentSpans T spans) :
    strip (pySlice T r.2.1 r.2.2) = r.1 ∧ r.1 ≠ [] ∧
      r.2.1 < r.2.2 ∧ r.2.2 ≤ T.length := by
  rcases List.mem_filterMap.mp hr with ⟨p, hp, heq⟩
  set u := pySlice T p.1 p.2 with hu
  by_cases hempty : (strip u).isEmpty
  · simp only [hempty] at heq
    exact absurd heq (by simp)
  · rw [Bool.not_eq_true] at hempty
    simp only [hempty, Bool.false_eq_true, if_false, Option.some_inj] at heq
    obtain ⟨hle, hlen⟩ := hspans p hp
    set k := u.length - (lstrip u).length with hk
    have htext : r.1 = strip u := by rw [← heq]
    have hstart : r.2.1 = p.1 + k := by rw [← heq]
    have hend : r.2.2 = p.2 := by rw [← heq]
    have hdrop : u.drop k = lstrip u := (lstrip_eq_drop u).symm
    have hslice : pySlice T (p.1 + k) p.2 = lstrip u := by
      rw [← pySlice_drop, ← hu, hdrop]
    have hne : r.1 ≠ [] := by
      intro h0
      rw [htext] at h0
      simp [h0, List.isEmpty_iff] at hempty
    refine ⟨?_, hne, ?_, ?_⟩
    · rw [hstart, hend, hslice, strip_lstrip, htext]
    · have hlne : lstrip u ≠ [] := by
        intro h0
        apply hne
        rw [htext, strip, h0]
        rfl
      have hlpos : 0 < (lstrip u).length := List.length_pos.mpr hlne
      have hlle : (lstrip u).length ≤ u.length := length_lstrip_le u
      have hulen : u.length = p.2 - p.1 := by
        rw [hu]
        exact length_pySlice T p.1 p.2 hle hlen
      rw [hstart, hend]
      omega
    · rw [hend]
      exact hlen

/-- Claim C1: for every raw text `T` and well-formed span list delivered by
the sentence model, each record `(text, startOffset, endOffset)` produced by
`parse_current_article_sentences` satisfies: stripping whitespace from
`T[startOffset:endOffset]` yields exactly `text`, `text` is non-empty, and
`0 ≤ startOffset < endOffset ≤ len T` (the lower bound holds by the `Nat`
type of offsets and is restated over `Int`). -/
theorem claim_C1 (T : List Char) (spans : List (Nat × Nat))
    (hspans : ∀ p ∈ spans, p.1 ≤ p.2 ∧ p.2 ≤ T.length)
    (r : List Char × Nat × Nat) (hr : r ∈ segmentSpans T spans) :
    strip (pySlice T r.2.1 r.2.2) = r.1 ∧ r.1 ≠ [] ∧
      (0 : Int) ≤ (r.2.1 : Int) ∧ r.2.1 < r.2.2 ∧ r.2.2 ≤ T.length := by
  obtain ⟨h1, h2, h3, h4⟩ := strip_eq_of_record hspans hr
  exact ⟨h1, h2, Int.ofNat_nonneg r.2.1, h3, h4⟩

/-- Witness for C1 on the concrete text `" Hi there.  Ok. "` with the spans
a sentencizer would report, evaluated concretely. -/
theorem claim_C1_wit :
    strip (pySlice ([' ', 'H', 'i', '.', ' ', ' ', 'O', 'k', '.', ' ']) 1 4) =
        ['H', 'i', '.'] ∧ (['H', 'i', '.'] : List Char) ≠ [] ∧
      (0 : Int) ≤ ((1 : Nat) : Int) ∧ 1 < 4 ∧ 4 ≤
        ([' ', 'H', 'i', '.', ' ', ' ', 'O', 'k', '.', ' '] : List Char).length := by
  have h := claim_C1 ([' ', 'H', 'i', '.', ' ', ' ', 'O', 'k', '.', ' '])
    [(0, 4), (4, 10)] (by decide) (['H', 'i', '.'], 1, 4) (by decide)
  exact h

/-! ### Bookmark navigation (`ArticleManager`)

`current_index` is a Python `int`, embedded as `Int` so that the
nonnegativity invariant is a genuine statement.  `_get_bookmarks` either
raises (caught, giving `None`) or returns a list; only its length matters
to navigation, so a fetch outcome is `Option Nat` (`none` = failed,
`some k` = a list of length `k`; Python truthiness of the list is
`0 < k`). -/

/-- Source `next_bookmark`: `if marks and current_index < len(marks) - 1`. -/
def next_bookmark (fetch : Option Nat) (i : Int) : Int × Bool :=
  match fetch with
  | some size => if 0 < size ∧ i < (size : Int) - 1 then (i + 1, true) else (i, false)
  | none => (i, false)

/-- Source `prev_bookmark`: `if current_index > 0` — it performs no fetch at all. -/
def prev_bookmark (i : Int) : Int × Bool :=
  if 0 < i then (i - 1, true) else (i, false)

/-- Source `first_bookmark`: `if marks: current_index = 0`. -/
def first_bookmark (fetch : Option Nat) (i : Int) : Int × Bool :=
  match fetch with
  | some size => if 0 < size then (0, true) else (i, false)
  | none => (i, false)

/-- Source `last_bookmark`: `if marks: current_index = len(marks) - 1`. -/
def last_bookmark (fetch : Option Nat) (i : Int) : Int × Bool :=
  match fetch with
  | some size => if 0 < size then ((size : Int) - 1, true) else (i, false)
  | none => (i, false)

/-- Source `set_bookmark_by_number`: `if not marks: return False`; `index = n - 1`;
`if 0 <= index < len(marks)`. -/
def set_bookmark_by_number (fetch : Option Nat) (n : Int) (i : Int) : Int × Bool :=
  match fetch with
  | some size =>
    if 0 < size then
      if 0 ≤ n - 1 ∧ n - 1 < (size : Int) then (n - 1, true) else (i, false)
    else (i, false)
  | none => (i, false)

/-- Iteration: `n` repeated calls of `next_bookmark` against a constant fetch outcome. -/
def nextIterate (fetch : Option Nat) (i : Int) : Nat → Int
  | 0 => i
  | n + 1 => nextIterate fetch (next_bookmark fetch i).1 n

theorem nextIterate_min (s : Nat) (hs : 0 < s) :
    ∀ (n : Nat) (i : Int), 0 ≤ i → i < (s : Int) →
      nextIterate (some s) i n = min (i + n) ((s : Int) - 1) := by
  intro n
  induction n with
  | zero =>
    intro i h0 hi
    simp [nextIterate]
    omega
  | succ n ih =>
    intro i h0 hi
    rw [nextIterate]
    by_cases hlt : i < (s : Int) - 1
    · have hnb : (next_bookmark (some s) i).1 = i + 1 := by
        simp [next_bookmark, hs, hlt]
      rw [hnb, ih (i + 1) (by omega) (by omega)]
      omega
    · have hnb : (next_bookmark (some s) i).1 = i := by
        simp only [next_bookmark]
        rw [if_neg (by omega)]
      rw [hnb, ih i h0 hi]
      omega

/-- Claim C4: `next_bookmark` advances the index by exactly one iff
`index < size - 1`, returns whether it moved, leaves the index unchanged
when it returns `false`; `n` calls from a valid index land on
`min (initial + n) (size - 1)`; and it returns `false` exactly when the
index is already `size - 1`. -/
theorem claim_C4 (s : Nat) (i : Int) (hs : 0 < s) (h0 : 0 ≤ i)
    (hi : i < (s : Int)) :
    ((next_bookmark (some s) i).2 = true ↔ i < (s : Int) - 1) ∧
      ((next_bookmark (some s) i).2 = true → (next_bookmark (some s) i).1 = i + 1) ∧
      ((next_bookmark (some s) i).2 = false → (next_bookmark (some s) i).1 = i) ∧
      (∀ n : Nat, nextIterate (some s) i n = min (i + n) ((s : Int) - 1)) ∧
      ((next_bookmark (some s) i).2 = false ↔ i = (s : Int) - 1) := by
  refine ⟨?_, ?_, ?_, (fun n => nextIterate_min s hs n i h0 hi), ?_⟩ <;>
    by_cases hlt : i < (s : Int) - 1
  · simp [next_bookmark, hs, hlt]
  · simp only [next_bookmark]
    rw [if_neg (by omega)]
    simp
    omega
  · simp [next_bookmark, hs, hlt]
  · simp only [next_bookmark]
    rw [if_neg (by omega)]
    simp
  · simp [next_bookmark, hs, hlt]
  · simp only [next_bookmark]
    rw [if_neg (by omega)]
    simp
  · simp [next_bookmark, hs, hlt]
    omega
  · simp only [next_bookmark]
    rw [if_neg (by omega)]
    simp
    omega

/-- Witness for C4 at `size = 3`, `index = 1`. -/
theorem claim_C4_wit :
    ((next_bookmark (some 3) 1).2 = true ↔ (1 : Int) < (3 : Int) - 1) ∧
      ((next_bookmark (some 3) 1).2 = true → (next_bookmark (some 3) 1).1 = 1 + 1) ∧
      ((next_bookmark (some 3) 1).2 = false → (next_bookmark (some 3) 1).1 = 1) ∧
      (∀ n : Nat, nextIterate (some 3) 1 n = min (1 + (n : Int)) ((3 : Int) - 1)) ∧
      ((next_bookmark (some 3) 1).2 = false ↔ (1 : Int) = (3 : Int) - 1) :=
  claim_C4 3 1 (by decide) (by decide) (by decide)

/-- Claim C5 counterexample: with the external fetch failing,
`prev_bookmark` at index `1` is not a no-op and does not report failure —
it never consults the fetch, decrements to `0` and returns `True`
(article_manager.py lines 90–95 perform no `_get_bookmarks` call). -/
theorem claim_C5_cex :
    (prev_bookmark 1).1 ≠ 1 ∧ (prev_bookmark 1).2 = true := by
  decide

/-- Claim C5 as amended: when the external fetch fails (`none`) or returns
an empty collection (`some 0`), `next_bookmark`, `first_bookmark`,
`last_bookmark` and `set_bookmark_by_number` are no-ops on the index and
report failure; `prev_bookmark` never consults the collection at all, so it
behaves exactly as it does over an empty collection: it decrements iff the
index is positive and reports whether it moved. -/
theorem claim_C5 (fetch : Option Nat) (i n : Int)
    (hfetch : fetch = none ∨ fetch = some 0) :
    next_bookmark fetch i = (i, false) ∧
      first_bookmark fetch i = (i, false) ∧
      last_bookmark fetch i = (i, false) ∧
      set_bookmark_by_number fetch n i = (i, false) ∧
      prev_bookmark i = (if 0 < i then (i - 1, true) else (i, false)) := by
  rcases hfetch with h | h <;> subst h <;>
    simp [next_bookmark, first_bookmark, last_bookmark, set_bookmark_by_number,
      prev_bookmark]

/-- Witness for C5 (amended) at `fetch = none`, `i = 2`, `n = 1`. -/
theorem claim_C5_wit :
    next_bookmark none 2 = (2, false) ∧
      first_bookmark none 2 = (2, false) ∧
      last_bookmark none 2 = (2, false) ∧
      set_bookmark_by_number none 1 2 = (2, false) ∧
      prev_bookmark 2 = (if (0 : Int) < 2 then ((2 : Int) - 1, true) else (2, false)) :=
  claim_C5 none 2 1 (Or.inl rfl)

/-- Claim C6: `set_bookmark_by_number` converts the 1-based ordinal `n` to
index `n - 1` and sets the cursor iff `0 ≤ n - 1 < size`, returning
success; in particular ordinals `0` and `size + 1` both fail and leave the
index unchanged. -/
theorem claim_C6 (s : Nat) (n i : Int) (hs : 0 < s) :
    ((set_bookmark_by_number (some s) n i).2 = true ↔
        0 ≤ n - 1 ∧ n - 1 < (s : Int)) ∧
      ((set_bookmark_by_number (some s) n i).2 = true →
        (set_bookmark_by_number (some s) n i).1 = n - 1) ∧
      ((set_bookmark_by_number (some s) n i).2 = false →
        (set_bookmark_by_number (some s) n i).1 = i) ∧
      set_bookmark_by_number (some s) 0 i = (i, false) ∧
      set_bookmark_by_number (some s) ((s : Int) + 1) i = (i, false) := by
  refine ⟨?_, ?_, ?_, ?_, ?_⟩
  · by_cases hin : 0 ≤ n - 1 ∧ n - 1 < (s : Int)
    · simp [set_bookmark_by_number, hs, hin]
    · simp only [set_bookmark_by_number, if_pos hs]
      rw [if_neg hin]
      simp
      omega
  · by_cases hin : 0 ≤ n - 1 ∧ n - 1 < (s : Int)
    · simp [set_bookmark_by_number, hs, hin]
    · simp only [set_bookmark_by_number, if_pos hs]
      rw [if_neg hin]
      simp
  · by_cases hin : 0 ≤ n - 1 ∧ n - 1 < (s : Int)
    · simp [set_bookmark_by_number, hs, hin]
    · simp only [set_bookmark_by_number, if_pos hs]
      rw [if_neg hin]
      simp
  · simp only [set_bookmark_by_number, if_pos hs]
    rw [if_neg (by omega)]
  · simp only [set_bookmark_by_number, if_pos hs]
    rw [if_neg (by omega)]

/-- Witness for C6 at `size = 3`, `n = 2`, `i = 0`. -/
theorem claim_C6_wit :
    ((set_bookmark_by_number (some 3) 2 0).2 = true ↔
        (0 : Int) ≤ 2 - 1 ∧ (2 : Int) - 1 < (3 : Int)) ∧
      ((set_bookmark_by_number (some 3) 2 0).2 = true →
        (set_bookmark_by_number (some 3) 2 0).1 = 2 - 1) ∧
      ((set_bookmark_by_number (some 3) 2 0).2 = false →
        (set_bookmark_by_number (some 3) 2 0).1 = 0) ∧
      set_bookmark_by_number (some 3) 0 0 = (0, false) ∧
      set_bookmark_by_number (some 3) ((3 : Int) + 1) 0 = (0, false) :=
  claim_C6 3 2 0 (by decide)

/-! ### The index-nonnegativity invariant over all manager operations -/

/-- One `ArticleManager` operation as it affects `current_index`.  The
remote operations (title/article getters, delete, star, archive, add,
highlight, count, segmentation) never assign `current_index`; they are all
represented by `mRemote`. -/
inductive MgrOp where
  | mNext
  | mPrev
  | mFirst
  | mLast
  | mSetByNumber (n : Int)
  | mRemote
deriving DecidableEq, Repr

/-- Effect of one operation on `current_index`, given that call's fetch
outcome. -/
def mgrApply (fetch : Option Nat) (op : MgrOp) (i : Int) : Int :=
  match op with
  | .mNext => (next_bookmark fetch i).1
  | .mPrev => (prev_bookmark i).1
  | .mFirst => (first_bookmark fetch i).1
  | .mLast => (last_bookmark fetch i).1
  | .mSetByNumber n => (set_bookmark_by_number fetch n i).1
  | .mRemote => i

/-- A whole session: each step carries its own fetch outcome (the
collection is re-fetched on every call and may shrink or fail). -/
def mgrRun (steps : List (Option Nat × MgrOp)) (i : Int) : Int :=
  steps.foldl (fun j st => mgrApply st.1 st.2 j) i

theorem mgrApply_nonneg (fetch : Option Nat) (op : MgrOp) (i : Int)
    (h : 0 ≤ i) : 0 ≤ mgrApply fetch op i := by
  cases op with
  | mNext =>
    cases fetch with
    | none => simpa [mgrApply, next_bookmark] using h
    | some s =>
      simp only [mgrApply, next_bookmark]
      split <;> omega
  | mPrev =>
    simp only [mgrApply, prev_bookmark]
    split <;> omega
  | mFirst =>
    cases fetch with
    | none => simpa [mgrApply, first_bookmark] using h
    | some s =>
      simp only [mgrApply, first_bookmark]
      split <;> omega
  | mLast =>
    cases fetch with
    | none => simpa [mgrApply, last_bookmark] using h
    | some s =>
      simp only [mgrApply, last_bookmark]
      split <;> omega
  | mSetByNumber n =>
    cases fetch with
    | none => simpa [mgrApply, set_bookmark_by_number] using h
    | some s =>
      simp only [mgrApply, set_bookmark_by_number]
      split
      · split <;> omega
      · omega
  | mRemote => simpa [mgrApply] using h

/-- Claim C10: `current_index` starts at `0` and every `ArticleManager`
operation preserves `current_index ≥ 0`, for every per-call fetch outcome
(failure or any collection size), so a whole session starting at `0` keeps
the index nonnegative. -/
theorem claim_C10 :
    (∀ (fetch : Option Nat) (op : MgrOp) (i : Int),
        0 ≤ i → 0 ≤ mgrApply fetch op i) ∧
      ∀ steps : List (Option Nat × MgrOp), 0 ≤ mgrRun steps 0 := by
  refine ⟨mgrApply_nonneg, fun steps => ?_⟩
  have h : ∀ (l : List (Option Nat × MgrOp)) (i : Int), 0 ≤ i → 0 ≤ mgrRun l i := by
    intro l
    induction l with
    | nil => intro i h0; simpa [mgrRun] using h0
    | cons st rest ih =>
      intro i h0
      simp only [mgrRun, List.foldl_cons] at *
      exact ih _ (mgrApply_nonneg st.1 st.2 i h0)
  exact h steps 0 le_rfl

/-- Witness for C10 at a concrete operation and session. -/
theorem claim_C10_wit :
    0 ≤ mgrApply none MgrOp.mPrev 0 ∧
      0 ≤ mgrRun [(some 3, MgrOp.mLast), (none, MgrOp.mPrev),
        (some 0, MgrOp.mSetByNumber 2), (some 5, MgrOp.mNext)] 0 :=
  ⟨claim_C10.1 none MgrOp.mPrev 0 (by decide),
    claim_C10.2 [(some 3, MgrOp.mLast), (none, MgrOp.mPrev),
      (some 0, MgrOp.mSetByNumber 2), (some 5, MgrOp.mNext)]⟩

/-! ### Speak mode (`handle_speak`)

The raw-keystroke loop of `handle_speak` is embedded as a step-per-key
recursion.  Rendering, the terminal-mode calls (`tty.setraw`,
`termios.tcsetattr(..., old_settings)`) and the highlight gateway call are
recorded as events in a trace; the gateway's fallibility is the `Bool`
carried by the highlight key (`create_highlight_for_current` catches its
own exceptions and returns a success flag).  A failure raised inside the
loop body (the spec's simulated mid-loop failure) is injected by iteration
number; the `finally` block appends the terminal restoration
unconditionally. -/

/-- One keystroke, classified as the loop classifies it.  `kHighlight ok`
carries whether the gateway call succeeds. -/
inductive SKey where
  | kQuit
  | kAdvance
  | kBack
  | kHighlight (ok : Bool)
  | kOther
deriving DecidableEq, Repr

/-- Observable events of one speak session. -/
inductive TEv where
  | evSetRaw
  | evRestore
  | evRender
  | evHCall
  | evPrintOk
  | evPrintErr
deriving DecidableEq, Repr

/-- How the loop ended: `q`, cursor past the last sentence, an injected
failure, input exhausted (the read would block), or no content (the loop
was never entered). -/
inductive LoopEnd where
  | endQuit
  | endPastEnd
  | endRaised
  | endNoInput
  | endNoContent
deriving DecidableEq, Repr

/-- The loop variables of `handle_speak`: the parsed sentence records
(abstracted to their text), `sentence_index` (a Python `int`, so `Int`),
and the `display_sentence` flag. -/
structure SpeakState where
  sentences : List (List Char)
  cursor : Int
  redraw : Bool
deriving DecidableEq, Repr

/-- Events of the render step at the top of the loop body (emitted only
when `display_sentence` is set). -/
def renderEvs (st : SpeakState) : List TEv :=
  if st.redraw then [TEv.evRender] else []
/-- Source `if sentence_index > 0: sentence_index -= 1` — the back key's clamped
decrement. -/
def backCursor (c : Int) : Int := if 0 < c then c - 1 else c

/-- The `while sentence_index < len(sentences)` loop of `handle_speak`,
consuming keys in order; `failAt` injects a raised failure at the given
iteration of the loop body. -/
def speakLoop (failAt : Option Nat) : List SKey → Nat → SpeakState →
    SpeakState × List TEv × LoopEnd
  | [], iter, st =>
    if st.cursor < (st.sentences.length : Int) then
      if failAt = some iter then (st, renderEvs st, .endRaised)
      else (st, renderEvs st, .endNoInput)
    else (st, [], .endPastEnd)
  | k :: ks, iter, st =>
    if st.cursor < (st.sentences.length : Int) then
      if failAt = some iter then (st, renderEvs st, .endRaised)
      else
        match k with
        | .kQuit => (st, renderEvs st, .endQuit)
        | .kAdvance =>
          let next := speakLoop failAt ks (iter + 1)
            { st with cursor := st.cursor + 1, redraw := true }
          (next.1, renderEvs st ++ next.2.1, next.2.2)
        | .kBack =>
          let next := speakLoop failAt ks (iter + 1)
            { st with cursor := backCursor st.cursor, redraw := true }
          (next.1, renderEvs st ++ next.2.1, next.2.2)
        | .kHighlight ok =>
          let next := speakLoop failAt ks (iter + 1) { st with redraw := false }
          (next.1,
            renderEvs st ++
              [TEv.evRestore, TEv.evHCall,
                if ok then TEv.evPrintOk else TEv.evPrintErr, TEv.evSetRaw] ++
              next.2.1,
            next.2.2)
        | .kOther =>
          let next := speakLoop failAt ks (iter + 1) { st with redraw := false }
          (next.1, renderEvs st ++ next.2.1, next.2.2)
    else (st, [], .endPastEnd)

/-- Loop entry state: `sentence_index = 0`, `display_sentence = True`. -/
def initSpeak (sentences : List (List Char)) : SpeakState :=
  ⟨sentences, 0, true⟩

/-- Source `handle_speak`: early return when segmentation produced nothing;
otherwise acquire raw mode, run the loop, and restore terminal settings in
the `finally` block on every way out. -/
def handleSpeak (failAt : Option Nat) (sentences : List (List Char))
    (keys : List SKey) : SpeakState × List TEv × LoopEnd :=
  if sentences.isEmpty then (initSpeak sentences, [], .endNoContent)
  else
    let r := speakLoop failAt keys 0 (initSpeak sentences)
    (r.1, TEv.evSetRaw :: r.2.1 ++ [TEv.evRestore], r.2.2)

/-! #### Cursor bounds (C2) -/

theorem speakLoop_cursor_inv (failAt : Option Nat) :
    ∀ (keys : List SKey) (iter : Nat) (st : SpeakState),
      0 ≤ st.cursor → st.cursor ≤ (st.sentences.length : Int) →
        (speakLoop failAt keys iter st).1.sentences = st.sentences ∧
          0 ≤ (speakLoop failAt keys iter st).1.cursor ∧
          (speakLoop failAt keys iter st).1.cursor ≤ (st.sentences.length : Int) := by
  intro keys
  induction keys with
  | nil =>
    intro iter st h0 hle
    simp only [speakLoop]
    split
    · split <;> exact ⟨rfl, h0, hle⟩
    · exact ⟨rfl, h0, hle⟩
  | cons k ks ih =>
    intro iter st h0 hle
    simp only [speakLoop]
    split
    · rename_i hlt
      split
      · exact ⟨rfl, h0, hle⟩
      · cases k with
        | kQuit => exact ⟨rfl, h0, hle⟩
        | kAdvance =>
          have h := ih (iter + 1) { st with cursor := st.cursor + 1, redraw := true }
            (by show (0 : Int) ≤ st.cursor + 1; omega)
            (by show st.cursor + 1 ≤ (st.sentences.length : Int); omega)
          simpa using h
        | kBack =>
          have h := ih (iter + 1)
            { st with cursor := backCursor st.cursor, redraw := true }
            (by show (0 : Int) ≤ backCursor st.cursor
                simp only [backCursor]
                split <;> omega)
            (by show backCursor st.cursor ≤ (st.sentences.length : Int)
                simp only [backCursor]
                split <;> omega)
          simpa using h
        | kHighlight ok =>
          have h := ih (iter + 1) { st with redraw := false } h0 hle
          simpa using h
        | kOther =>
          have h := ih (iter + 1) { st with redraw := false } h0 hle
          simpa using h
    · exact ⟨rfl, h0, hle⟩

/-- Claim C2: in the speak-mode key loop the cursor stays in
`[0, len sentences]` for every key sequence, the quit key exits, the
advance key increments the cursor (exiting past the last sentence), and
the back key decrements clamped at `0`; concretely, with 3 sentences the
keys space, space, b, q take the cursor `0 → 1 → 2 → 1` and exit, a back
key at the first sentence is a no-op, and a third space from the last
sentence exits past the end at cursor `3`. -/
theorem claim_C2 :
    (∀ (failAt : Option Nat) (keys : List SKey) (iter : Nat) (st : SpeakState),
        0 ≤ st.cursor → st.cursor ≤ (st.sentences.length : Int) →
          (speakLoop failAt keys iter st).1.sentences = st.sentences ∧
            0 ≤ (speakLoop failAt keys iter st).1.cursor ∧
            (speakLoop failAt keys iter st).1.cursor ≤
              (st.sentences.length : Int)) ∧
      (speakLoop none [SKey.kAdvance] 0
          (initSpeak [['a'], ['b'], ['c']])).1.cursor = 1 ∧
      (speakLoop none [SKey.kAdvance, SKey.kAdvance] 0
          (initSpeak [['a'], ['b'], ['c']])).1.cursor = 2 ∧
      (speakLoop none [SKey.kAdvance, SKey.kAdvance, SKey.kBack] 0
          (initSpeak [['a'], ['b'], ['c']])).1.cursor = 1 ∧
      (speakLoop none [SKey.kAdvance, SKey.kAdvance, SKey.kBack, SKey.kQuit] 0
          (initSpeak [['a'], ['b'], ['c']])).1.cursor = 1 ∧
      (speakLoop none [SKey.kAdvance, SKey.kAdvance, SKey.kBack, SKey.kQuit] 0
          (initSpeak [['a'], ['b'], ['c']])).2.2 = LoopEnd.endQuit ∧
      (speakLoop none [SKey.kBack] 0
          (initSpeak [['a'], ['b'], ['c']])).1.cursor = 0 ∧
      (speakLoop none [SKey.kAdvance, SKey.kAdvance, SKey.kAdvance] 0
          (initSpeak [['a'], ['b'], ['c']])).1.cursor = 3 ∧
      (speakLoop none [SKey.kAdvance, SKey.kAdvance, SKey.kAdvance] 0
          (initSpeak [['a'], ['b'], ['c']])).2.2 = LoopEnd.endPastEnd :=
  ⟨fun failAt keys iter st h0 hle => speakLoop_cursor_inv failAt keys iter st h0 hle,
    by decide, by decide, by decide, by decide, by decide, by decide, by decide,
    by decide⟩

/-- Witness for C2: the bounds instantiated on a concrete session. -/
theorem claim_C2_wit :
    0 ≤ (speakLoop none [SKey.kBack, SKey.kAdvance, SKey.kOther] 0
        (initSpeak [['a'], ['b']])).1.cursor ∧
      (speakLoop none [SKey.kBack, SKey.kAdvance, SKey.kOther] 0
          (initSpeak [['a'], ['b']])).1.cursor ≤
        (((initSpeak [['a'], ['b']]).sentences.length : Nat) : Int) :=
  ⟨(claim_C2.1 none [SKey.kBack, SKey.kAdvance, SKey.kOther] 0
      (initSpeak [['a'], ['b']]) (by decide) (by decide)).2.1,
    (claim_C2.1 none [SKey.kBack, SKey.kAdvance, SKey.kOther] 0
      (initSpeak [['a'], ['b']]) (by decide) (by decide)).2.2⟩

/-! #### Terminal-mode restoration (C3) -/

/-- Folding step counting restorations since the most recent raw-mode
acquisition. -/
def restStep (a : Nat) (e : TEv) : Nat :=
  match e with
  | .evSetRaw => 0
  | .evRestore => a + 1
  | _ => a

/-- Number of terminal restorations performed after the last raw-mode
acquisition — the restorations in effect when control returns. -/
def restAfterAcq (evs : List TEv) : Nat := evs.foldl restStep 0

theorem renderEvs_restFold (st : SpeakState) (a : Nat) :
    (renderEvs st).foldl restStep a = a := by
  by_cases h : st.redraw <;> simp [renderEvs, h, restStep]

theorem speakLoop_restFold (failAt : Option Nat) :
    ∀ (keys : List SKey) (iter : Nat) (st : SpeakState),
      ((speakLoop failAt keys iter st).2.1).foldl restStep 0 = 0 := by
  intro keys
  induction keys with
  | nil =>
    intro iter st
    simp only [speakLoop]
    split
    · split <;> exact renderEvs_restFold st 0
    · rfl
  | cons k ks ih =>
    intro iter st
    simp only [speakLoop]
    split
    · split
      · exact renderEvs_restFold st 0
      · cases k with
        | kQuit => exact renderEvs_restFold st 0
        | kAdvance =>
          simp only [List.foldl_append, renderEvs_restFold]
          exact ih (iter + 1) _
        | kBack =>
          simp only [List.foldl_append, renderEvs_restFold]
          exact ih (iter + 1) _
        | kHighlight ok =>
          cases ok <;>
            simp only [List.foldl_append, renderEvs_restFold, List.foldl_cons,
              restStep, Bool.false_eq_true, if_false, if_true] <;>
            exact ih (iter + 1) _
        | kOther =>
          simp only [List.foldl_append, renderEvs_restFold]
          exact ih (iter + 1) _
    · rfl

/-- Claim C3: on every exit path from speak mode — normal quit, the cursor
running past the last sentence, or a failure raised inside the loop body —
exactly one terminal-mode restoration has executed after the last raw-mode
acquisition when control returns to the caller (the highlight branch's
temporary release is always paired with a re-acquisition, so the one
`finally` restoration is what is in effect at return). -/
theorem claim_C3 (failAt : Option Nat) (sentences : List (List Char))
    (keys : List SKey) (hne : sentences ≠ [])
    (hexit : (handleSpeak failAt sentences keys).2.2 ≠ LoopEnd.endNoInput) :
    restAfterAcq (handleSpeak failAt sentences keys).2.1 = 1 := by
  have hemp : sentences.isEmpty = false := by
    simpa [List.isEmpty_iff] using hne
  have hloop := speakLoop_restFold failAt keys 0 (initSpeak sentences)
  simp only [handleSpeak, hemp, Bool.false_eq_true, if_false, restAfterAcq,
    List.foldl_cons, List.foldl_append, List.foldl_nil, restStep, hloop]

/-- Witness for C3: a two-sentence session with one failed highlight then a
quit restores the terminal exactly once. -/
theorem claim_C3_wit :
    ([['h'], ['i']] : List (List Char)) ≠ [] ∧
      (handleSpeak none [['h'], ['i']] [SKey.kHighlight false, SKey.kQuit]).2.2 ≠
        LoopEnd.endNoInput ∧
      restAfterAcq
        (handleSpeak none [['h'], ['i']]
          [SKey.kHighlight false, SKey.kQuit]).2.1 = 1 :=
  ⟨by decide, by decide,
    claim_C3 none [['h'], ['i']] [SKey.kHighlight false, SKey.kQuit]
      (by decide) (by decide)⟩

/-! #### Highlight failure inside speak mode (C7) -/

/-- Claim C7: when the highlight gateway call made from speak mode fails,
the session continues with the same cursor and the same sentence list (the
continuation state differs from `st` only in the suppressed-redraw flag),
the loop is not exited by the failure, the gateway is invoked exactly once
(no retry), and the failure is reported as a user-visible error line. -/
theorem claim_C7 (iter : Nat) (st : SpeakState) (ks : List SKey)
    (hlt : st.cursor < (st.sentences.length : Int)) :
    (speakLoop none (SKey.kHighlight false :: ks) iter st).1 =
        (speakLoop none ks (iter + 1) { st with redraw := false }).1 ∧
      (speakLoop none (SKey.kHighlight false :: ks) iter st).2.2 =
        (speakLoop none ks (iter + 1) { st with redraw := false }).2.2 ∧
      (speakLoop none (SKey.kHighlight false :: ks) iter st).2.1 =
        renderEvs st ++
          [TEv.evRestore, TEv.evHCall, TEv.evPrintErr, TEv.evSetRaw] ++
          (speakLoop none ks (iter + 1) { st with redraw := false }).2.1 := by
  simp [speakLoop, hlt]

/-- Witness for C7 on a concrete two-sentence session at the first
sentence. -/
theorem claim_C7_wit :
    (speakLoop none [SKey.kHighlight false] 0 (initSpeak [['a'], ['b']])).1 =
        (speakLoop none [] 1 { initSpeak [['a'], ['b']] with redraw := false }).1 ∧
      (speakLoop none [SKey.kHighlight false] 0 (initSpeak [['a'], ['b']])).2.2 =
        (speakLoop none [] 1 { initSpeak [['a'], ['b']] with redraw := false }).2.2 ∧
      (speakLoop none [SKey.kHighlight false] 0 (initSpeak [['a'], ['b']])).2.1 =
        renderEvs (initSpeak [['a'], ['b']]) ++
          [TEv.evRestore, TEv.evHCall, TEv.evPrintErr, TEv.evSetRaw] ++
          (speakLoop none [] 1 { initSpeak [['a'], ['b']] with redraw := false }).2.1 :=
  claim_C7 0 (initSpeak [['a'], ['b']]) [] (by decide)

/-! ### Line-width configuration (C8)

Both `display_article` and `handle_speak` compute
`int(os.getenv("SPEAK_LINE_WIDTH", "70"))`.  `os.getenv` returns the
variable's value or the default string `"70"`; Python's `int()` strips
surrounding whitespace, accepts an optional sign and a digit sequence with
single underscores between digits, and RAISES `ValueError` otherwise — the
expression has no fallback for an invalid value. -/

/-- Tail of a Python integer literal body after its leading digit: digits,
with single underscores only between digits. -/
def restOkDigits : List Char → Bool
  | [] => true
  | ['_'] => false
  | '_' :: c :: r => c.isDigit && restOkDigits r
  | c :: r => c.isDigit && restOkDigits r

/-- A valid `int()` digit body: non-empty, led by a digit. -/
def digitBodyOk : List Char → Bool
  | [] => false
  | c :: r => c.isDigit && restOkDigits r

/-- Numeric value of a digit body, skipping underscores. -/
def digitsValue (s : List Char) : Nat :=
  s.foldl (fun n c => if c = '_' then n else n * 10 + (c.toNat - '0'.toNat)) 0

/-- Python `int(s)` on a string: `some` the value, or `none` for the
`ValueError` raise. -/
def pyIntOfStr (s : List Char) : Option Int :=
  match strip s with
  | '+' :: r => if digitBodyOk r then some (digitsValue r) else none
  | '-' :: r => if digitBodyOk r then some (-(digitsValue r : Int)) else none
  | r => if digitBodyOk r then some (digitsValue r) else none

/-- Source `int(os.getenv("SPEAK_LINE_WIDTH", "70"))`: `env` is the variable's
value if set.  `Except.error` is the uncaught `ValueError`. -/
def speakLineWidth (env : Option (List Char)) : Except Unit Int :=
  match pyIntOfStr (env.getD ['7', '0']) with
  | some n => Except.ok n
  | none => Except.error ()

/-- Claim C8 counterexample: with `SPEAK_LINE_WIDTH` set to the non-integer
`"abc"`, the line-width expression does not default to `70` — `int()`
raises, so the command fails. -/
theorem claim_C8_cex :
    speakLineWidth (some ['a', 'b', 'c']) = Except.error () ∧
      speakLineWidth (some ['a', 'b', 'c']) ≠ Except.ok 70 := by
  constructor
  · rfl
  · intro h
    cases h

/-- Claim C8 as amended: the wrapping width is read from
`SPEAK_LINE_WIDTH` and defaults to `70` when the variable is unset; when it
is set to a valid integer string that value is used, but when it is set to
an invalid value the conversion raises (the surrounding command fails)
rather than falling back to `70`. -/
theorem claim_C8 :
    speakLineWidth none = Except.ok 70 ∧
      (∀ (v : List Char) (n : Int),
        pyIntOfStr v = some n → speakLineWidth (some v) = Except.ok n) ∧
      ∀ v : List Char,
        pyIntOfStr v = none → speakLineWidth (some v) = Except.error () := by
  refine ⟨rfl, ?_, ?_⟩
  · intro v n h
    simp [speakLineWidth, h]
  · intro v h
    simp [speakLineWidth, h]

/-- Witness for C8 (amended) at `SPEAK_LINE_WIDTH="42"` and at an invalid
value. -/
theorem claim_C8_wit :
    speakLineWidth (some ['4', '2']) = Except.ok 42 ∧
      speakLineWidth (some ['4', 'x']) = Except.error () :=
  ⟨claim_C8.2.1 ['4', '2'] 42 (by decide), claim_C8.2.2 ['4', 'x'] (by decide)⟩


/-! ### Text wrapping (C9)

The repository delegates wrapping to the Python `textwrap` library, which
is not part of this repository's sources; the spec specifies TextRenderer
only as `wrap(text, width) -> ordered sequence of lines`, pure,
deterministic and idempotent.  The renderer is therefore modelled from the
spec as a greedy word wrap: split the text into maximal whitespace-free
words, then fill lines left to right, starting a new line when adding the
next word (plus a separating space) would exceed the width.  `wrapLines`
is a function of its two arguments, which settles purity and determinism;
idempotence is `claim_C9`. -/

/-- Accumulator-based word splitter: maximal runs of non-whitespace
characters, in order. -/
def wordsAux : List Char → List Char → List (List Char)
  | [], acc => if acc.isEmpty then [] else [acc.reverse]
  | c :: cs, acc =>
    if pyWS c then
      (if acc.isEmpty then wordsAux cs [] else acc.reverse :: wordsAux cs [])
    else wordsAux cs (c :: acc)

def textWords (s : List Char) : List (List Char) := wordsAux s []

/-- A word as produced by splitting: non-empty and whitespace-free. -/

def goodWord (w : List Char) : Prop := w ≠ [] ∧ ∀ c ∈ w, pyWS c = false

/-- Join pieces with a separator. -/

def sepJoin (sep : List Char) : List (List Char) → List Char
  | [] => []
  | [x] => x
  | x :: y :: r => x ++ sep ++ sepJoin sep (y :: r)

/-- Modelled from the spec: the greedy fill of TextRenderer.wrap --- the
current line is the accumulator (in reverse), with its rendered length;
words longer than the width occupy lines of their own. -/
def greedyFill (width : Nat) : List (List Char) → List (List Char) → Nat →
    List (List (List Char))
  | [], [], _ => []
  | [], c :: cur, _ => [(c :: cur).reverse]
  | w :: rest, [], _ => greedyFill width rest [w] w.length
  | w :: rest, c :: cur, curLen =>
    if curLen + 1 + w.length ≤ width then
      greedyFill width rest (w :: c :: cur) (curLen + 1 + w.length)
    else (c :: cur).reverse :: greedyFill width rest [w] w.length

/-- Concatenation of the word groups of all lines. -/
def flatWords : List (List (List Char)) → List (List Char)
  | [] => []
  | g :: gs => g ++ flatWords gs

/-- Modelled from the spec: `TextRenderer.wrap(text, width)` --- the
ordered sequence of output lines. -/
def wrapLines (width : Nat) (s : List Char) : List (List Char) :=
  (greedyFill width (textWords s) [] 0).map (sepJoin [' '])

/-- The already-wrapped text: the line sequence rendered back to one
text. -/
def joinedLines (lines : List (List Char)) : List Char := sepJoin ['\n'] lines

theorem wordsAux_append_ws (sep : Char) (hsep : pyWS sep = true) :
    ∀ (a b : List Char) (acc : List Char),
      wordsAux (a ++ sep :: b) acc = wordsAux a acc ++ wordsAux b [] := by
  intro a
  induction a with
  | nil =>
    intro b acc
    simp only [List.nil_append, wordsAux, hsep, if_true]
    by_cases hacc : acc.isEmpty <;> simp [hacc, wordsAux]
  | cons c a2 ih =>
    intro b acc
    simp only [List.cons_append, wordsAux]
    by_cases hc : pyWS c
    · simp only [hc, if_true]
      by_cases hacc : acc.isEmpty <;> simp [hacc, ih]
    · simp only [hc, Bool.false_eq_true, if_false]
      exact ih b (c :: acc)

theorem wordsAux_good (s : List Char) :
    ∀ acc : List Char, (∀ c ∈ acc, pyWS c = false) →
      ∀ w ∈ wordsAux s acc, goodWord w := by
  induction s with
  | nil =>
    intro acc hacc w hw
    simp only [wordsAux] at hw
    by_cases h : acc.isEmpty
    · simp [h] at hw
    · simp only [h, Bool.false_eq_true, if_false, List.mem_singleton] at hw
      subst hw
      refine ⟨by simpa [List.isEmpty_iff] using h, ?_⟩
      intro c hc
      exact hacc c (List.mem_reverse.mp hc)
  | cons c cs ih =>
    intro acc hacc w hw
    simp only [wordsAux] at hw
    by_cases hc : pyWS c
    · simp only [hc, if_true] at hw
      by_cases hacc2 : acc.isEmpty
      · simp only [hacc2, if_true] at hw
        exact ih [] (by simp) w hw
      · simp only [hacc2, Bool.false_eq_true, if_false, List.mem_cons] at hw
        rcases hw with hw | hw
        · subst hw
          refine ⟨by simpa [List.isEmpty_iff] using hacc2, ?_⟩
          intro d hd
          exact hacc d (List.mem_reverse.mp hd)
        · exact ih [] (by simp) w hw
    · simp only [hc, Bool.false_eq_true, if_false] at hw
      refine ih (c :: acc) ?_ w hw
      intro d hd
      rcases List.mem_cons.mp hd with hd | hd
      · subst hd
        simpa using hc
      · exact hacc d hd

theorem wordsAux_of_noWS (w : List Char) :
    ∀ acc : List Char, (∀ c ∈ w, pyWS c = false) →
      wordsAux w acc =
        if (acc.reverse ++ w).isEmpty then [] else [acc.reverse ++ w] := by
  induction w with
  | nil =>
    intro acc hw
    simp only [wordsAux, List.append_nil]
    by_cases h : acc.isEmpty
    · have : acc = [] := by simpa [List.isEmpty_iff] using h
      subst this
      simp
    · have : acc ≠ [] := by simpa [List.isEmpty_iff] using h
      rcases List.exists_cons_of_ne_nil this with ⟨x, xs, hx⟩
      subst hx
      simp
  | cons c r ih =>
    intro acc hw
    have hc : pyWS c = false := hw c (List.mem_cons_self c r)
    simp only [wordsAux, hc, Bool.false_eq_true, if_false]
    rw [ih (c :: acc) (fun d hd => hw d (List.mem_cons_of_mem c hd))]
    simp

theorem textWords_single (w : List Char) (hw : goodWord w) :
    textWords w = [w] := by
  rcases hw with ⟨hne, hnw⟩
  rw [textWords, wordsAux_of_noWS w [] hnw]
  simp [List.isEmpty_iff, hne]

theorem textWords_sepJoin_space (g : List (List Char))
    (hg : ∀ w ∈ g, goodWord w) :
    textWords (sepJoin [' '] g) = g := by
  induction g with
  | nil => rfl
  | cons x gs ih =>
    cases gs with
    | nil =>
      show textWords (sepJoin [' '] [x]) = [x]
      rw [show sepJoin [' '] [x] = x from rfl]
      exact textWords_single x (hg x (List.mem_cons_self x []))
    | cons y r =>
      have hx : goodWord x := hg x (List.mem_cons_self x (y :: r))
      have hrest : ∀ w ∈ y :: r, goodWord w :=
        fun w hw => hg w (List.mem_cons_of_mem x hw)
      have hjoin : sepJoin [' '] (x :: y :: r) = x ++ ' ' :: sepJoin [' '] (y :: r) := by
        show x ++ [' '] ++ sepJoin [' '] (y :: r) = x ++ ' ' :: sepJoin [' '] (y :: r)
        rw [List.append_assoc]
        rfl
      rw [textWords, hjoin, wordsAux_append_ws ' ' (by decide) x (sepJoin [' '] (y :: r)) []]
      rw [← textWords, ← textWords, textWords_single x hx, ih hrest]
      rfl

theorem textWords_joined (groups : List (List (List Char)))
    (hgs : ∀ g ∈ groups, ∀ w ∈ g, goodWord w) :
    textWords (joinedLines (groups.map (sepJoin [' ']))) = flatWords groups := by
  induction groups with
  | nil => rfl
  | cons g gs ih =>
    cases gs with
    | nil =>
      show textWords (joinedLines [sepJoin [' '] g]) = flatWords [g]
      rw [show joinedLines [sepJoin [' '] g] = sepJoin [' '] g from rfl]
      rw [textWords_sepJoin_space g (hgs g (List.mem_cons_self g []))]
      show g = g ++ []
      simp
    | cons g2 gs2 =>
      have hg : ∀ w ∈ g, goodWord w := hgs g (List.mem_cons_self g (g2 :: gs2))
      have hrest : ∀ h ∈ g2 :: gs2, ∀ w ∈ h, goodWord w :=
        fun h hh => hgs h (List.mem_cons_of_mem g hh)
      have hjoin : joinedLines ((g :: g2 :: gs2).map (sepJoin [' '])) =
          sepJoin [' '] g ++ '\n' ::
            joinedLines ((g2 :: gs2).map (sepJoin [' '])) := by
        show sepJoin [' '] g ++ ['\n'] ++ _ = _
        rw [List.append_assoc]
        rfl
      rw [textWords, hjoin, wordsAux_append_ws '\n' (by decide)]
      rw [← textWords, ← textWords, textWords_sepJoin_space g hg, ih hrest]
      rfl

theorem greedyFill_flat (width : Nat) :
    ∀ (ws : List (List Char)) (cur : List (List Char)) (n : Nat),
      flatWords (greedyFill width ws cur n) = cur.reverse ++ ws := by
  intro ws
  induction ws with
  | nil =>
    intro cur n
    cases cur with
    | nil => rfl
    | cons c cs => simp [greedyFill, flatWords]
  | cons w rest ih =>
    intro cur n
    cases cur with
    | nil => simpa [greedyFill] using ih [w] w.length
    | cons c cs =>
      simp only [greedyFill]
      by_cases hfit : n + 1 + w.length ≤ width
      · rw [if_pos hfit, ih]
        simp
      · rw [if_neg hfit]
        show (c :: cs).reverse ++ flatWords (greedyFill width rest [w] w.length) = _
        rw [ih]
        simp

theorem mem_flatWords {w : List Char} :
    ∀ {gs : List (List (List Char))} {g : List (List Char)},
      g ∈ gs → w ∈ g → w ∈ flatWords gs := by
  intro gs
  induction gs with
  | nil => intro g hg; simp at hg
  | cons h t ih =>
    intro g hg hw
    rcases List.mem_cons.mp hg with hg | hg
    · subst hg
      exact List.mem_append.mpr (Or.inl hw)
    · exact List.mem_append.mpr (Or.inr (ih hg hw))

/-- Claim C9: the text-wrapping operation is pure and deterministic (it is
a function of its arguments), and idempotent on already-wrapped text: for
every text and width, wrapping the rendered result of `wrapLines` again at
the same width yields the same line sequence. -/
theorem claim_C9 (s : List Char) (width : Nat) :
    wrapLines width (joinedLines (wrapLines width s)) = wrapLines width s := by
  have hgood : ∀ w ∈ textWords s, goodWord w :=
    wordsAux_good s [] (by simp)
  have hflat : flatWords (greedyFill width (textWords s) [] 0) = textWords s := by
    simpa using greedyFill_flat width (textWords s) [] 0
  have hgroups : ∀ g ∈ greedyFill width (textWords s) [] 0, ∀ w ∈ g, goodWord w := by
    intro g hg w hw
    exact hgood w (hflat ▸ mem_flatWords hg hw)
  show (greedyFill width (textWords (joinedLines (wrapLines width s))) [] 0).map
      (sepJoin [' ']) = wrapLines width s
  rw [show wrapLines width s =
      (greedyFill width (textWords s) [] 0).map (sepJoin [' ']) from rfl]
  rw [show textWords (joinedLines ((greedyFill width (textWords s) [] 0).map
      (sepJoin [' ']))) = flatWords (greedyFill width (textWords s) [] 0) from
    textWords_joined _ hgroups]
  rw [hflat]

end IpConductor
